import Mathlib

/-
Shallow embedding of the antd-mcp extraction pipeline (src/fetcher.py) and
tool dispatcher (src/server.py).  Python strings are modelled as Lean
strings / lists of characters; Python dicts as insertion-ordered association
lists with unique keys; fallible code as Except.
-/

set_option maxHeartbeats 1000000

namespace AntdMcp

/-- Whitespace characters recognised by Python str.strip() / str.split()
(ASCII whitespace; the documentation pages contain no exotic space chars). -/
def isWs (c : Char) : Bool :=
  c == ' ' || c == '\t' || c == '\n' || c == '\r' || c == '\x0b' || c == '\x0c'

/-- Characters matched by the regex class A-Za-z0-9 used in normalize_name. -/
def isAsciiAlnum (c : Char) : Bool :=
  (decide ('A' ≤ c) && decide (c ≤ 'Z')) ||
  (decide ('a' ≤ c) && decide (c ≤ 'z')) ||
  (decide ('0' ≤ c) && decide (c ≤ '9'))

/-- Python str.strip(): drop whitespace from both ends. -/
def pyStrip (s : List Char) : List Char :=
  ((s.dropWhile isWs).reverse.dropWhile isWs).reverse

/-- Accumulator worker for pySplit: cur holds the current token reversed. -/
def pySplitAux : List Char → List Char → List (List Char)
  | [], cur => if cur = [] then [] else [cur.reverse]
  | c :: t, cur =>
    if isWs c then
      if cur = [] then pySplitAux t [] else cur.reverse :: pySplitAux t []
    else pySplitAux t (c :: cur)

/-- Python str.split() with no argument: split on whitespace runs, producing
no empty tokens. -/
def pySplit (s : List Char) : List (List Char) := pySplitAux s []

theorem pySplitAux_ne_nil (s : List Char) (cur : List Char) (h : cur ≠ []) :
    pySplitAux s cur =
      (cur.reverse ++ s.takeWhile (fun x => !isWs x)) ::
        pySplit (s.dropWhile (fun x => !isWs x)) := by
  induction s generalizing cur with
  | nil => simp [pySplitAux, h, pySplit]
  | cons c t ih =>
    by_cases hc : isWs c
    · simp [pySplitAux, hc, h, List.takeWhile_cons, List.dropWhile_cons, pySplit]
    · simp only [pySplitAux, hc, if_false, if_neg, List.takeWhile_cons,
        List.dropWhile_cons]
      rw [ih (c :: cur) (by simp)]
      simp [hc]

/-- Unfolding equation: pySplit skips a leading whitespace character. -/
theorem pySplit_cons_ws {c : Char} (s : List Char) (hc : isWs c) :
    pySplit (c :: s) = pySplit s := by
  simp [pySplit, pySplitAux, hc]

/-- Unfolding equation: on a non-whitespace head, pySplit emits the maximal
leading non-whitespace run as the first token. -/
theorem pySplit_cons_tok {c : Char} (s : List Char) (hc : ¬ isWs c) :
    pySplit (c :: s) =
      (c :: s.takeWhile (fun x => !isWs x)) ::
        pySplit (s.dropWhile (fun x => !isWs x)) := by
  show pySplitAux (c :: s) [] = _
  simp only [pySplitAux, hc, if_false]
  rw [pySplitAux_ne_nil s [c] (by simp)]
  simp

/-- normalize_name from parse_overview (fetcher.py): strip the raw label, take
the leading run of ASCII letters/digits if there is one, otherwise the first
whitespace-delimited token of the stripped label, otherwise the (empty)
stripped label itself. -/
def normalizeNameL (raw : List Char) : List Char :=
  let r := pyStrip raw
  let m := r.takeWhile isAsciiAlnum
  if m ≠ [] then m
  else
    match pySplit r with
    | t :: _ => t
    | [] => r

/-- String-level wrapper for normalize_name. -/
def normalize_name (raw : String) : String :=
  (normalizeNameL raw.toList).asString

example : normalize_name "Button 按钮" = "Button" := by decide
example : normalize_name "中文名" = "中文名" := by decide
example : normalize_name " " = "" := by decide

/-! Helper lemmas about whitespace, stripping and splitting. -/

theorem ws_cases {c : Char} (h : isWs c = true) :
    c = ' ' ∨ c = '\t' ∨ c = '\n' ∨ c = '\r' ∨ c = '\x0b' ∨ c = '\x0c' := by
  simp only [isWs, Bool.or_eq_true, beq_iff_eq] at h
  tauto

theorem alnum_not_ws {c : Char} (h : isAsciiAlnum c = true) : isWs c = false := by
  by_contra hws
  rcases ws_cases (by simpa using hws) with h1 | h1 | h1 | h1 | h1 | h1 <;>
    subst h1 <;> exact absurd h (by decide)

theorem mem_dropWhile_self {p : Char → Bool} {l : List Char} {x : Char}
    (hx : x ∈ l) (hpx : p x = false) : x ∈ l.dropWhile p := by
  have hsplit := List.takeWhile_append_dropWhile (p := p) (l := l)
  rcases List.mem_append.mp (by rw [hsplit]; exact hx) with h | h
  · exact absurd (List.mem_takeWhile_imp h) (by simp [hpx])
  · exact h

theorem dropWhile_eq_self_of {p : Char → Bool} {l : List Char}
    (h : ∀ x ∈ l, p x = false) : l.dropWhile p = l := by
  cases l with
  | nil => rfl
  | cons a t => rw [List.dropWhile_cons]; simp [h a (by simp)]

theorem takeWhile_eq_self_of {p : Char → Bool} {l : List Char}
    (h : ∀ x ∈ l, p x = true) : l.takeWhile p = l := by
  induction l with
  | nil => rfl
  | cons a t ih =>
    rw [List.takeWhile_cons]
    simp only [h a (by simp), if_true]
    rw [ih (fun x hx => h x (by simp [hx]))]

theorem dropWhile_head_false {p : Char → Bool} :
    ∀ {l : List Char} {a : Char} {t : List Char}, l.dropWhile p = a :: t → p a = false := by
  intro l
  induction l with
  | nil => intro a t h; simp at h
  | cons x xs ih =>
    intro a t h
    rw [List.dropWhile_cons] at h
    by_cases hx : p x = true
    · rw [if_pos hx] at h; exact ih h
    · rw [if_neg hx] at h
      cases h
      simpa using hx

theorem dropWhile_suffix_ex (p : Char → Bool) (l : List Char) :
    ∃ pre, pre ++ l.dropWhile p = l := by
  induction l with
  | nil => exact ⟨[], rfl⟩
  | cons a t ih =>
    by_cases ha : p a = true
    · obtain ⟨pre, hpre⟩ := ih
      exact ⟨a :: pre, by rw [List.dropWhile_cons, if_pos ha]; simp [hpre]⟩
    · exact ⟨[], by rw [List.dropWhile_cons, if_neg ha]; simp⟩

theorem pyStrip_ne_nil {s : List Char} (h : ∃ x ∈ s, isWs x = false) :
    pyStrip s ≠ [] := by
  obtain ⟨x, hx, hxw⟩ := h
  have h1 : x ∈ s.dropWhile isWs := mem_dropWhile_self hx hxw
  have h2 : x ∈ (s.dropWhile isWs).reverse := List.mem_reverse.mpr h1
  have h3 : x ∈ (s.dropWhile isWs).reverse.dropWhile isWs := mem_dropWhile_self h2 hxw
  intro hnil
  rw [pyStrip, List.reverse_eq_nil_iff] at hnil
  rw [hnil] at h3
  simp at h3

theorem pyStrip_head {s : List Char} {c : Char} {t : List Char}
    (h : pyStrip s = c :: t) : isWs c = false := by
  rw [pyStrip] at h
  obtain ⟨pre, hpre⟩ := dropWhile_suffix_ex isWs (s.dropWhile isWs).reverse
  have hu := congrArg List.reverse h
  rw [List.reverse_reverse] at hu
  rw [hu] at hpre
  have hv := congrArg List.reverse hpre
  rw [List.reverse_reverse, List.reverse_append, List.reverse_reverse] at hv
  rw [List.cons_append] at hv
  exact dropWhile_head_false hv.symm

theorem pyStrip_eq_self_of {s : List Char} (h : ∀ x ∈ s, isWs x = false) :
    pyStrip s = s := by
  rw [pyStrip, dropWhile_eq_self_of h,
    dropWhile_eq_self_of (fun x hx => h x (List.mem_reverse.mp hx)), List.reverse_reverse]

/-! Properties of pySplit tokens. -/

theorem pySplitAux_tokens {s : List Char} :
    ∀ {cur : List Char}, (∀ x ∈ cur, isWs x = false) →
      ∀ t ∈ pySplitAux s cur, t ≠ [] ∧ ∀ x ∈ t, isWs x = false := by
  induction s with
  | nil =>
    intro cur hcur t ht
    by_cases hc : cur = []
    · simp [pySplitAux, hc] at ht
    · simp only [pySplitAux, hc, if_false, List.mem_singleton] at ht
      subst ht
      exact ⟨by simpa using hc, fun x hx => hcur x (List.mem_reverse.mp hx)⟩
  | cons c rest ih =>
    intro cur hcur t ht
    by_cases hw : isWs c
    · by_cases hc : cur = []
      · simp only [pySplitAux, hw, if_true, hc, if_true] at ht
        exact ih (by simp) t ht
      · simp only [pySplitAux, hw, if_true, hc, if_false, List.mem_cons] at ht
        rcases ht with ht | ht
        · subst ht
          exact ⟨by simpa using hc, fun x hx => hcur x (List.mem_reverse.mp hx)⟩
        · exact ih (by simp) t ht
    · simp only [pySplitAux, hw, if_false] at ht
      refine ih ?_ t ht
      intro x hx
      rcases List.mem_cons.mp hx with hx | hx
      · subst hx; simpa using hw
      · exact hcur x hx

theorem pySplit_tokens {s : List Char} :
    ∀ t ∈ pySplit s, t ≠ [] ∧ ∀ x ∈ t, isWs x = false :=
  pySplitAux_tokens (by simp)

/-! Key evaluation lemmas for normalizeNameL. -/

theorem normalizeNameL_of_alnum {m : List Char} (hne : m ≠ [])
    (h : ∀ x ∈ m, isAsciiAlnum x = true) : normalizeNameL m = m := by
  rw [normalizeNameL]
  have hstrip : pyStrip m = m :=
    pyStrip_eq_self_of (fun x hx => alnum_not_ws (h x hx))
  rw [hstrip, takeWhile_eq_self_of h]
  simp [hne]

theorem normalizeNameL_eq (raw : List Char) :
    normalizeNameL raw =
      (if (pyStrip raw).takeWhile isAsciiAlnum ≠ [] then
        (pyStrip raw).takeWhile isAsciiAlnum
      else
        match pySplit (pyStrip raw) with
        | t :: _ => t
        | [] => pyStrip raw) := rfl

theorem normalizeNameL_of_token {c : Char} {rest : List Char}
    (hc : isAsciiAlnum c = false) (hnw : ∀ x ∈ c :: rest, isWs x = false) :
    normalizeNameL (c :: rest) = c :: rest := by
  have hm : (c :: rest).takeWhile isAsciiAlnum = [] := by
    rw [List.takeWhile_cons, hc]
    simp
  rw [normalizeNameL_eq, pyStrip_eq_self_of hnw, hm]
  simp only [ne_eq, not_true_eq_false, if_false]
  rw [pySplit_cons_tok rest (by simp [hnw c (by simp)])]
  rw [takeWhile_eq_self_of (p := fun x => !isWs x)
    (fun x hx => by simp [hnw x (by simp [hx])])]

theorem normalizeNameL_idem (raw : List Char) :
    normalizeNameL (normalizeNameL raw) = normalizeNameL raw := by
  rw [normalizeNameL_eq raw]
  by_cases hm : (pyStrip raw).takeWhile isAsciiAlnum ≠ []
  · rw [if_pos hm]
    exact normalizeNameL_of_alnum hm (fun x hx => List.mem_takeWhile_imp hx)
  · rw [if_neg hm]
    push_neg at hm
    rcases hr : pyStrip raw with _ | ⟨c, t⟩
    · rfl
    · rw [hr] at hm
      rw [List.takeWhile_cons] at hm
      have hc : isAsciiAlnum c = false := by
        by_contra hcc
        simp only [Bool.not_eq_false] at hcc
        rw [if_pos hcc] at hm
        simp at hm
      have hcw : isWs c = false := pyStrip_head hr
      rw [pySplit_cons_tok t (by simp [hcw])]
      refine normalizeNameL_of_token hc ?_
      intro x hx
      rcases List.mem_cons.mp hx with hx | hx
      · subst hx; exact hcw
      · have := List.mem_takeWhile_imp hx
        simpa using this

theorem normalizeNameL_ne_nil {raw : List Char} (h : ∃ x ∈ raw, isWs x = false) :
    normalizeNameL raw ≠ [] := by
  rw [normalizeNameL_eq]
  have hr : pyStrip raw ≠ [] := pyStrip_ne_nil h
  by_cases hm : (pyStrip raw).takeWhile isAsciiAlnum ≠ []
  · rw [if_pos hm]
    exact hm
  · rw [if_neg hm]
    rcases hrr : pyStrip raw with _ | ⟨c, t⟩
    · exact absurd hrr hr
    · have hcw : isWs c = false := pyStrip_head hrr
      rw [pySplit_cons_tok t (by simp [hcw])]
      simp

/-- C3 (corrected): canonicalName is idempotent for every raw label, and its
result is non-empty whenever the label contains at least one non-whitespace
character.  The original claim asserted non-emptiness for every non-empty
label, which fails on whitespace-only labels such as a single space. -/
theorem normalize_name_c3 :
    (∀ raw : String, (∃ x ∈ raw.toList, isWs x = false) → normalize_name raw ≠ "") ∧
    (∀ raw : String, normalize_name (normalize_name raw) = normalize_name raw) := by
  constructor
  · intro raw h hcontra
    exact normalizeNameL_ne_nil h (congrArg String.data hcontra)
  · intro raw
    show (normalizeNameL (normalizeNameL raw.toList)).asString = _
    rw [normalizeNameL_idem]
    rfl

/-- Witness for C3 at a concrete bilingual label. -/
theorem normalize_name_c3_witness :
    normalize_name "Button 按钮" ≠ "" ∧
    normalize_name (normalize_name "Button 按钮") = normalize_name "Button 按钮" :=
  ⟨normalize_name_c3.1 "Button 按钮" (by decide), normalize_name_c3.2 "Button 按钮"⟩

/-- Counterexample for C3 as stated: the label consisting of a single space is
non-empty, yet its canonical name is the empty string. -/
theorem normalize_name_c3_counterexample :
    (" " : String) ≠ "" ∧ normalize_name " " = "" := by
  constructor
  · decide
  · decide

/-! Catalog extraction: parse_overview validity filter and deduplication. -/

/-- Component summary assembled by parse_overview: canonical name, raw display
label, optional resolved url, description. -/
structure Summary where
  name : String
  display_name : String
  url : Option String
  description : String
deriving DecidableEq

/-- Substring test modelling the Python "in" operator on strings. -/
def containsSub (sub : List Char) : List Char → Bool
  | [] => sub.isEmpty
  | a :: t => sub.isPrefixOf (a :: t) || containsSub sub t

/-- is_valid from parse_overview: the url must be present (and truthy),
contain the path marker "/components/", and start with http:// or https://. -/
def is_valid (c : Summary) : Bool :=
  match c.url with
  | none => false
  | some u =>
    !(u == "") && containsSub "/components/".toList u.toList &&
      ("http://".toList.isPrefixOf u.toList || "https://".toList.isPrefixOf u.toList)

/-- Lookup in an insertion-ordered Python dict modelled as an association
list with unique keys. -/
def dget {α : Type} (d : List (String × α)) (k : String) : Option α :=
  match d.find? (fun p => p.1 == k) with
  | some p => some p.2
  | none => none

/-- Python dict assignment: overwrite the value in place when the key exists,
otherwise append the new binding at the end. -/
def dset {α : Type} (d : List (String × α)) (k : String) (v : α) : List (String × α) :=
  if d.any (fun p => p.1 == k) then
    d.map (fun p => if p.1 == k then (k, v) else p)
  else d ++ [(k, v)]

/-- Python str.lower(), modelled as per-character ASCII lowercasing (the
canonical names fed to it are ASCII tokens or caseless localized text). -/
def pyLower (s : String) : String := (s.toList.map Char.toLower).asString

/-- One step of the dedup loop in parse_overview (fetcher.py): skip invalid
summaries; key by the lower-cased canonical name; keep the incumbent unless
the newcomer has a strictly longer display_name. -/
def cleanStep (cleaned : List (String × Summary)) (c : Summary) :
    List (String × Summary) :=
  if !is_valid c then cleaned
  else
    let key := pyLower c.name
    match dget cleaned key with
    | none => dset cleaned key c
    | some old =>
      if old.display_name.length < c.display_name.length then dset cleaned key c
      else cleaned

theorem cleanStep_invalid {c : Summary} (d : List (String × Summary))
    (h : is_valid c = false) : cleanStep d c = d := by
  unfold cleanStep
  simp [h]

theorem cleanStep_new {c : Summary} {d : List (String × Summary)}
    (h : is_valid c = true) (hd : dget d (pyLower c.name) = none) :
    cleanStep d c = dset d (pyLower c.name) c := by
  unfold cleanStep
  simp only [h, Bool.not_true, Bool.false_eq_true, if_false]
  rw [hd]

theorem cleanStep_coll {c old : Summary} {d : List (String × Summary)}
    (h : is_valid c = true) (hd : dget d (pyLower c.name) = some old) :
    cleanStep d c =
      if old.display_name.length < c.display_name.length then
        dset d (pyLower c.name) c
      else d := by
  unfold cleanStep
  simp only [h, Bool.not_true, Bool.false_eq_true, if_false]
  rw [hd]

/-- Validity-filter and dedup stage of parse_overview: fold the raw summaries
into a dict keyed by lower-cased name and return the dict's values. -/
def parse_overview_clean (components : List Summary) : List Summary :=
  (components.foldl cleanStep []).map (fun p => p.2)

theorem mem_dset {α : Type} {d : List (String × α)} {k : String} {v : α}
    {x : String × α} (hx : x ∈ dset d k v) : x ∈ d ∨ x = (k, v) := by
  unfold dset at hx
  by_cases h : d.any (fun p => p.1 == k)
  · rw [if_pos h] at hx
    obtain ⟨y, hy, hyx⟩ := List.mem_map.mp hx
    by_cases hyk : (y.1 == k) = true
    · right
      rw [← hyx, if_pos hyk]
    · left
      rw [← hyx, if_neg hyk]
      exact hy
  · rw [if_neg h] at hx
    rcases List.mem_append.mp hx with h1 | h1
    · exact Or.inl h1
    · exact Or.inr (by simpa using h1)

theorem clean_fold_valid (comps : List Summary) :
    ∀ acc, (∀ p ∈ acc, is_valid p.2 = true) →
      ∀ p ∈ comps.foldl cleanStep acc, is_valid p.2 = true := by
  induction comps with
  | nil =>
    intro acc hacc p hp
    exact hacc p (by simpa using hp)
  | cons c rest ih =>
    intro acc hacc p hp
    rw [List.foldl_cons] at hp
    refine ih (cleanStep acc c) ?_ p hp
    intro q hq
    by_cases hv : is_valid c = true
    · rcases hd : dget acc (pyLower c.name) with _ | old
      · rw [cleanStep_new hv hd] at hq
        rcases mem_dset hq with h1 | h1
        · exact hacc q h1
        · rw [h1]; exact hv
      · rw [cleanStep_coll hv hd] at hq
        by_cases hlen : old.display_name.length < c.display_name.length
        · rw [if_pos hlen] at hq
          rcases mem_dset hq with h1 | h1
          · exact hacc q h1
          · rw [h1]; exact hv
        · rw [if_neg hlen] at hq
          exact hacc q hq
    · rw [cleanStep_invalid acc (by simpa using hv)] at hq
      exact hacc q hq

/-- C7 (confirmed): every summary in the catalog returned by parse_overview
has a present, non-empty url that contains the path marker "/components/" and
starts with an http:// or https:// scheme; invalid summaries are discarded by
the is_valid filter before the catalog is returned. -/
theorem parse_overview_valid_c7 (components : List Summary) (c : Summary)
    (hc : c ∈ parse_overview_clean components) :
    ∃ u : String, c.url = some u ∧ u ≠ "" ∧
      containsSub "/components/".toList u.toList = true ∧
      ("http://".toList.isPrefixOf u.toList = true ∨
        "https://".toList.isPrefixOf u.toList = true) := by
  obtain ⟨p, hp, rfl⟩ := List.mem_map.mp hc
  have hval : is_valid p.2 = true := clean_fold_valid components [] (by simp) p hp
  rw [is_valid] at hval
  rcases hu : p.2.url with _ | u
  · rw [hu] at hval
    simp at hval
  · rw [hu] at hval
    simp only [Bool.and_eq_true, Bool.or_eq_true, bne_iff_ne, Bool.not_eq_true] at hval
    refine ⟨u, rfl, ?_, hval.1.2, hval.2⟩
    have := hval.1.1
    simpa using this

/-- Witness for C7 at a concrete one-summary catalog. -/
theorem parse_overview_valid_c7_witness :
    ∃ u : String,
      (Summary.mk "Button" "Button 按钮"
          (some "https://4x.ant.design/components/button-cn/") "").url = some u ∧
      u ≠ "" ∧ containsSub "/components/".toList u.toList = true ∧
      ("http://".toList.isPrefixOf u.toList = true ∨
        "https://".toList.isPrefixOf u.toList = true) :=
  parse_overview_valid_c7
    [Summary.mk "Button" "Button 按钮"
      (some "https://4x.ant.design/components/button-cn/") ""]
    (Summary.mk "Button" "Button 按钮"
      (some "https://4x.ant.design/components/button-cn/") "")
    (by decide)

/-- C6 (confirmed): merging two valid summaries that collide on the
lower-cased canonical name keeps exactly one catalog entry, the one whose
display_name is strictly longer; on a tie the first-seen summary wins. -/
theorem parse_overview_dedup_c6 (a b : Summary) (ha : is_valid a = true)
    (hb : is_valid b = true) (hk : pyLower a.name = pyLower b.name) :
    parse_overview_clean [a, b] =
      [if a.display_name.length < b.display_name.length then b else a] := by
  unfold parse_overview_clean
  simp only [List.foldl_cons, List.foldl_nil]
  have h1 : cleanStep [] a = [(pyLower a.name, a)] := by
    rw [cleanStep_new ha (by rfl)]
    rfl
  rw [h1]
  have h2 : dget [(pyLower a.name, a)] (pyLower b.name) = some a := by
    unfold dget
    simp [List.find?, hk]
  rw [cleanStep_coll hb h2]
  by_cases hlen : a.display_name.length < b.display_name.length
  · rw [if_pos hlen, if_pos hlen]
    unfold dset
    simp [hk]
  · rw [if_neg hlen, if_neg hlen]
    simp

/-- Witness for C6: the summary with the longer bilingual label replaces the
shorter one under the shared key. -/
theorem parse_overview_dedup_c6_witness :
    parse_overview_clean
        [Summary.mk "Button" "Button"
           (some "https://4x.ant.design/components/button-cn/") "",
         Summary.mk "button" "Button 按钮"
           (some "https://4x.ant.design/components/button-cn/") ""] =
      [Summary.mk "button" "Button 按钮"
         (some "https://4x.ant.design/components/button-cn/") ""] := by
  have h := parse_overview_dedup_c6
    (Summary.mk "Button" "Button"
       (some "https://4x.ant.design/components/button-cn/") "")
    (Summary.mk "button" "Button 按钮"
       (some "https://4x.ant.design/components/button-cn/") "")
    (by decide) (by decide) (by decide)
  rw [if_pos (by decide)] at h
  exact h

/-! Detail extraction: table classification. -/

/-- Join header labels with single spaces, as done before keyword matching. -/
def joinSp (header : List String) : List Char :=
  List.intercalate [' '] (header.map String.toList)

/-- Event keyword group of classify (checked first). -/
def eventKeywords : List (List Char) :=
  ["事件", "回调", "listener", "on"].map String.toList

/-- Method keyword group of classify (checked second). -/
def methodKeywords : List (List Char) :=
  ["方法", "method", "函数"].map String.toList

/-- Property keyword group of classify (checked third). -/
def propKeywords : List (List Char) :=
  ["参数", "属性", "属性名", "名称", "配置项", "参数名", "字段", "Prop",
    "Property", "选项", "可配置项"].map String.toList

/-- First API-combo keyword group of classify. -/
def apiKeywords1 : List (List Char) :=
  ["类型", "默认", "必填", "必选", "可选值"].map String.toList

/-- Second API-combo keyword group of classify. -/
def apiKeywords2 : List (List Char) :=
  ["类型", "默认", "参数"].map String.toList

/-- classify from parse_component: determine a table's semantic category from
its joined header labels by the first matching keyword rule, in the order
events, methods, props keywords, then the two API-combination heuristics. -/
def classify (header : List String) : String :=
  let h := joinSp header
  if eventKeywords.any (fun k => containsSub k h) then "events"
  else if methodKeywords.any (fun k => containsSub k h) then "methods"
  else if propKeywords.any (fun k => containsSub k h) then "props"
  else if apiKeywords1.any (fun k => containsSub k h) && containsSub "API".toList h then
    "props"
  else if containsSub "API".toList h && apiKeywords2.any (fun k => containsSub k h) then
    "props"
  else "other"

/-- C4 (confirmed): classify is a deterministic function of the header labels
and applies its rules in the fixed priority order events, methods, props,
other: an events keyword always wins, a methods keyword wins unless an events
keyword matches, a props keyword wins unless events or methods match, and a
header matching no rule is classified other. -/
theorem classify_c4 :
    (∀ h1 h2 : List String, h1 = h2 → classify h1 = classify h2) ∧
    (∀ header : List String,
      eventKeywords.any (fun k => containsSub k (joinSp header)) = true →
      classify header = "events") ∧
    (∀ header : List String,
      eventKeywords.any (fun k => containsSub k (joinSp header)) = false →
      methodKeywords.any (fun k => containsSub k (joinSp header)) = true →
      classify header = "methods") ∧
    (∀ header : List String,
      eventKeywords.any (fun k => containsSub k (joinSp header)) = false →
      methodKeywords.any (fun k => containsSub k (joinSp header)) = false →
      propKeywords.any (fun k => containsSub k (joinSp header)) = true →
      classify header = "props") ∧
    (∀ header : List String,
      eventKeywords.any (fun k => containsSub k (joinSp header)) = false →
      methodKeywords.any (fun k => containsSub k (joinSp header)) = false →
      propKeywords.any (fun k => containsSub k (joinSp header)) = false →
      (apiKeywords1.any (fun k => containsSub k (joinSp header)) &&
        containsSub "API".toList (joinSp header)) = false →
      (containsSub "API".toList (joinSp header) &&
        apiKeywords2.any (fun k => containsSub k (joinSp header))) = false →
      classify header = "other") := by
  refine ⟨fun h1 h2 h => by rw [h], ?_, ?_, ?_, ?_⟩
  · intro header he
    unfold classify
    simp [he]
  · intro header he hm
    unfold classify
    simp [he, hm]
  · intro header he hm hp
    unfold classify
    simp [he, hm, hp]
  · intro header he hm hp h4 h5
    simp only [classify]
    rw [if_neg (by simp only [he]; exact Bool.false_ne_true),
      if_neg (by simp only [hm]; exact Bool.false_ne_true),
      if_neg (by simp only [hp]; exact Bool.false_ne_true),
      if_neg (by simp only [h4]; exact Bool.false_ne_true),
      if_neg (by simp only [h5]; exact Bool.false_ne_true)]

/-- Witness for C4 at the spec's four representative headers. -/
theorem classify_c4_witness :
    classify ["事件名", "说明"] = "events" ∧
    classify ["方法名", "说明"] = "methods" ∧
    classify ["参数", "说明", "类型", "默认值"] = "props" ∧
    classify ["示例", "效果"] = "other" :=
  ⟨classify_c4.2.1 _ (by decide),
   classify_c4.2.2.1 _ (by decide) (by decide),
   classify_c4.2.2.2.1 _ (by decide) (by decide) (by decide),
   classify_c4.2.2.2.2 _ (by decide) (by decide) (by decide) (by decide) (by decide)⟩

/-! Detail extraction: row records and props-row normalization. -/

/-- Value stored in an extracted row dict: a cell string, or the positional
cell list that rows with mismatched cell counts keep under the key "cells". -/
inductive RVal where
  | s (v : String)
  | l (v : List String)
deriving DecidableEq

/-- Extracted RowRecord: a Python dict from labels to values, modelled as an
insertion-ordered association list. -/
abbrev Row := List (String × RVal)

/-- Python len() of a row value: codepoint count of a string, length of a
list. -/
def rlen : RVal → Nat
  | .s v => v.length
  | .l v => v.length

/-- Python indexing of a row value: the list element at the index, or the
one-character string when indexing into a string. -/
def ridx : RVal → Nat → String
  | .s v, i => ((v.toList.drop i).take 1).asString
  | .l v, i => v.getD i ""

/-- Build the extracted RowRecord for one table row (parse_component): a
label-to-cell-text dict when the cell count matches a non-empty header,
otherwise the positional dict with the single key "cells". -/
def rowOf (header : List String) (cells : List String) : Row :=
  if header ≠ [] ∧ header.length = cells.length then
    (header.zip cells).foldl (fun d p => dset d p.1 (RVal.s p.2)) []
  else [("cells", RVal.l cells)]

/-- Fixed bilingual synonym table mapping raw column labels to canonical
field names. -/
def header_synonyms : List (String × String) := [
  ("参数", "name"), ("属性", "name"), ("属性名", "name"), ("名称", "name"),
  ("配置项", "name"), ("参数名", "name"), ("字段", "name"), ("Prop", "name"),
  ("Property", "name"), ("可配置项", "name"),
  ("说明", "description"), ("描述", "description"), ("备注", "description"),
  ("含义", "description"),
  ("类型", "type"), ("Type", "type"), ("数据类型", "type"),
  ("默认值", "default"), ("默认", "default"), ("缺省值", "default"),
  ("版本", "version"), ("Since", "version"),
  ("可选值", "options"), ("选项", "options"), ("可选", "options"),
  ("枚举", "options"),
  ("是否必填", "required"), ("必填", "required"), ("必选", "required"),
  ("是否必选", "required")]

/-- header_synonyms.get(h, h): canonical field name for a column label,
falling back to the label itself. -/
def syn (h : String) : String :=
  match dget header_synonyms h with
  | some v => v
  | none => h

/-- Value in a normalized property row: a string, a coerced boolean, a
positional list, or the retained raw RowRecord. -/
inductive NVal where
  | s (v : String)
  | b (v : Bool)
  | l (v : List String)
  | raw (r : List (String × RVal))
deriving DecidableEq

/-- Copy a row value into a normalized row unchanged. -/
def toNVal : RVal → NVal
  | .s v => .s v
  | .l v => .l v

/-- Affirmative tokens recognised when coercing the required cell. -/
def requiredTrueTokens : List String := ["是", "必填", "必选", "true", "必须"]

/-- Negative tokens recognised when coercing the required cell. -/
def requiredFalseTokens : List String := ["否", "可选", "false", "选填"]

/-- name.split(chr(10))[0].strip(): first line of a cell, trimmed. -/
def firstLineStrip (s : String) : String :=
  (pyStrip (s.toList.takeWhile (fun c => c != '\n'))).asString

/-- Label-mapping block of normalize_row: positionally for rows carrying the
key "cells", otherwise through the synonym table over the row's own items. -/
def mapStep (row : Row) (header : List String)
    (normalized : List (String × NVal)) : List (String × NVal) :=
  match dget row "cells" with
  | some cv =>
    header.enum.foldl (fun n p =>
      if p.1 < rlen cv then dset n (syn p.2) (NVal.s (ridx cv p.1)) else n)
      normalized
  | none =>
    row.foldl (fun n p => dset n (syn p.1) (toNVal p.2)) normalized

/-- Name-cleanup block of normalize_row: a truthy (non-empty) string name is
truncated to its trimmed first line.  A non-string name never occurs in rows
built by the extractor, so the remaining arms leave the dict alone. -/
def nameStep (normalized : List (String × NVal)) : List (String × NVal) :=
  match dget normalized "name" with
  | some (NVal.s s) =>
    if s ≠ "" then dset normalized "name" (NVal.s (firstLineStrip s))
    else normalized
  | _ => normalized

/-- Required-coercion block of normalize_row: a string-valued required cell
containing an affirmative token becomes true, else one containing a negative
token becomes false, else the dict is left unchanged. -/
def reqStep (normalized : List (String × NVal)) : List (String × NVal) :=
  match dget normalized "required" with
  | some (NVal.s s) =>
    if requiredTrueTokens.any (fun t => containsSub t.toList s.toList) then
      dset normalized "required" (NVal.b true)
    else if requiredFalseTokens.any (fun t => containsSub t.toList s.toList) then
      dset normalized "required" (NVal.b false)
    else normalized
  | _ => normalized

/-- Steps of normalize_row before the required coercion, starting from the
dict that retains the original row under "raw". -/
def normalize_row_pre (row : Row) (header : List String) : List (String × NVal) :=
  nameStep (mapStep row header [("raw", NVal.raw row)])

/-- normalize_row from parse_component: raw retention, synonym mapping, name
cleanup, then the tri-state required coercion. -/
def normalize_row (row : Row) (header : List String) : List (String × NVal) :=
  reqStep (normalize_row_pre row header)

/-! Dict lemmas used by the row theorems. -/

theorem dget_cons {α : Type} (p : String × α) (d : List (String × α)) (k : String) :
    dget (p :: d) k = if (p.1 == k) = true then some p.2 else dget d k := by
  unfold dget
  by_cases h : (p.1 == k) = true <;> simp [List.find?, h]

theorem dget_dset_self {α : Type} (d : List (String × α)) (k : String) (v : α) :
    dget (dset d k v) k = some v := by
  unfold dset
  by_cases h : d.any (fun p => p.1 == k) = true
  · rw [if_pos h]
    induction d with
    | nil => simp at h
    | cons p t ih =>
      simp only [List.any_cons, Bool.or_eq_true] at h
      by_cases hp : (p.1 == k) = true
      · rw [List.map_cons, if_pos hp, dget_cons]
        rw [if_pos (by simp)]
      · rw [List.map_cons, if_neg hp, dget_cons, if_neg hp]
        exact ih (h.resolve_left hp)
  · rw [if_neg h]
    simp only [List.any_eq_true, not_exists, not_and, Bool.not_eq_true] at h
    induction d with
    | nil =>
      rw [List.nil_append, dget_cons, if_pos (by simp)]
    | cons p t ih =>
      rw [List.cons_append, dget_cons,
        if_neg (by simp [h p (by simp)]), ih (fun q hq => h q (by simp [hq]))]

theorem dget_dset_ne {α : Type} (d : List (String × α)) {k k2 : String} (v : α)
    (hk : k ≠ k2) : dget (dset d k v) k2 = dget d k2 := by
  unfold dset
  by_cases h : d.any (fun p => p.1 == k) = true
  · rw [if_pos h]
    clear h
    induction d with
    | nil => rfl
    | cons p t ih =>
      by_cases hp : (p.1 == k) = true
      · have hpk : p.1 = k := by simpa using hp
        rw [List.map_cons, if_pos hp, dget_cons, dget_cons,
          if_neg (by simp [hk]), if_neg (by simp [hpk, hk]), ih]
      · rw [List.map_cons, if_neg hp, dget_cons, dget_cons, ih]
  · rw [if_neg h]
    clear h
    induction d with
    | nil =>
      rw [List.nil_append, dget_cons, if_neg (by simp [hk])]
    | cons p t ih =>
      rw [List.cons_append, dget_cons, dget_cons]
      by_cases hp : (p.1 == k2) = true
      · rw [if_pos hp, if_pos hp]
      · rw [if_neg hp, if_neg hp, ih]

theorem reqStep_of_s {n : List (String × NVal)} {v : String}
    (hv : dget n "required" = some (NVal.s v)) :
    reqStep n =
      (if requiredTrueTokens.any (fun t => containsSub t.toList v.toList) then
        dset n "required" (NVal.b true)
      else if requiredFalseTokens.any (fun t => containsSub t.toList v.toList) then
        dset n "required" (NVal.b false)
      else n) := by
  unfold reqStep
  rw [hv]

theorem reqStep_none {n : List (String × NVal)}
    (hv : dget n "required" = none) : reqStep n = n := by
  unfold reqStep
  rw [hv]

example :
    dget (normalize_row [("必填", RVal.s "是")] ["必填"]) "required" =
      some (NVal.b true) := by decide

/-- C2 (corrected): the required field of a normalized row is tri-state in
this sense: when the pre-coercion required cell is a string containing an
affirmative token it becomes true; containing a negative but no affirmative
token it becomes false; otherwise the original cell string stays in place
unchanged, so an empty or unrecognized cell remains present as a string
(never coerced to a boolean); the field is absent only when no column mapped
to required at all. -/
theorem normalize_row_required_c2 (row : Row) (header : List String) :
    (∀ v : String,
      dget (normalize_row_pre row header) "required" = some (NVal.s v) →
      ((requiredTrueTokens.any (fun t => containsSub t.toList v.toList) = true →
        dget (normalize_row row header) "required" = some (NVal.b true)) ∧
       (requiredTrueTokens.any (fun t => containsSub t.toList v.toList) = false →
        requiredFalseTokens.any (fun t => containsSub t.toList v.toList) = true →
        dget (normalize_row row header) "required" = some (NVal.b false)) ∧
       (requiredTrueTokens.any (fun t => containsSub t.toList v.toList) = false →
        requiredFalseTokens.any (fun t => containsSub t.toList v.toList) = false →
        dget (normalize_row row header) "required" = some (NVal.s v)))) ∧
    (dget (normalize_row_pre row header) "required" = none →
      dget (normalize_row row header) "required" = none) := by
  constructor
  · intro v hv
    refine ⟨?_, ?_, ?_⟩
    · intro ht
      rw [normalize_row, reqStep_of_s hv, if_pos ht, dget_dset_self]
    · intro ht hf
      rw [normalize_row, reqStep_of_s hv,
        if_neg (by simp only [ht]; exact Bool.false_ne_true), if_pos hf,
        dget_dset_self]
    · intro ht hf
      rw [normalize_row, reqStep_of_s hv,
        if_neg (by simp only [ht]; exact Bool.false_ne_true),
        if_neg (by simp only [hf]; exact Bool.false_ne_true)]
      exact hv
  · intro hv
    rw [normalize_row, reqStep_none hv]
    exact hv

/-- Witness for C2: affirmative, negative and unrecognized required cells. -/
theorem normalize_row_required_c2_witness :
    dget (normalize_row [("必填", RVal.s "是")] ["必填"]) "required" =
      some (NVal.b true) ∧
    dget (normalize_row [("必填", RVal.s "否")] ["必填"]) "required" =
      some (NVal.b false) ∧
    dget (normalize_row [("必填", RVal.s "maybe")] ["必填"]) "required" =
      some (NVal.s "maybe") :=
  ⟨((normalize_row_required_c2 _ _).1 "是" (by decide)).1 (by decide),
   (((normalize_row_required_c2 _ _).1 "否" (by decide)).2.1 (by decide) (by decide)),
   (((normalize_row_required_c2 _ _).1 "maybe" (by decide)).2.2
      (by decide) (by decide))⟩

/-- Counterexample for C2 as stated: an empty required cell leaves the field
present with the empty string as its value, not absent. -/
theorem normalize_row_required_c2_counterexample :
    dget (normalize_row [("必填", RVal.s "")] ["必填"]) "required" =
      some (NVal.s "") ∧
    dget (normalize_row [("必填", RVal.s "")] ["必填"]) "required" ≠ none := by
  constructor
  · decide
  · decide

/-! Raw-field preservation machinery for C5. -/

theorem dget_foldl_preserve {β : Type} (key : String) (xs : List β)
    (step : List (String × NVal) → β → List (String × NVal))
    (hstep : ∀ n x, x ∈ xs → dget (step n x) key = dget n key) :
    ∀ n, dget (xs.foldl step n) key = dget n key := by
  induction xs with
  | nil => intro n; rfl
  | cons x t ih =>
    intro n
    rw [List.foldl_cons, ih (fun m y hy => hstep m y (by simp [hy])),
      hstep n x (by simp)]

theorem mem_of_mem_enumFrom {α : Type} :
    ∀ {l : List α} {n : Nat} {x : Nat × α}, x ∈ l.enumFrom n → x.2 ∈ l := by
  intro l
  induction l with
  | nil => intro n x h; simp [List.enumFrom] at h
  | cons a t ih =>
    intro n x h
    simp only [List.enumFrom] at h
    rcases List.mem_cons.mp h with h1 | h1
    · rw [h1]; simp
    · exact List.mem_cons_of_mem _ (ih h1)

theorem mem_of_mem_enum {α : Type} {l : List α} {x : Nat × α}
    (h : x ∈ l.enum) : x.2 ∈ l :=
  mem_of_mem_enumFrom h

theorem dget_nameStep_ne (n : List (String × NVal)) {key : String}
    (hk : "name" ≠ key) : dget (nameStep n) key = dget n key := by
  unfold nameStep
  split
  · split
    · rw [dget_dset_ne n _ hk]
    · rfl
  · rfl

theorem dget_reqStep_ne (n : List (String × NVal)) {key : String}
    (hk : "required" ≠ key) : dget (reqStep n) key = dget n key := by
  unfold reqStep
  split
  · split
    · rw [dget_dset_ne n _ hk]
    · split
      · rw [dget_dset_ne n _ hk]
      · rfl
  · rfl

theorem dget_mapStep (row : Row) (header : List String)
    (hrow : ∀ p ∈ row, syn p.1 ≠ "raw")
    (hhead : ∀ h ∈ header, syn h ≠ "raw") (n : List (String × NVal)) :
    dget (mapStep row header n) "raw" = dget n "raw" := by
  unfold mapStep
  split
  · apply dget_foldl_preserve
    intro m p hp
    split
    · exact dget_dset_ne m _ (hhead p.2 (mem_of_mem_enum hp))
    · rfl
  · apply dget_foldl_preserve
    intro m p hp
    exact dget_dset_ne m _ (hrow p hp)

theorem dget_raw_base (row : Row) :
    dget [("raw", NVal.raw row)] "raw" = some (NVal.raw row) := by
  rw [dget_cons, if_pos (by simp)]

theorem rowOf_mapping_vals (header cells : List String) :
    ∀ x ∈ (header.zip cells).foldl (fun d p => dset d p.1 (RVal.s p.2)) ([] : Row),
      ∃ w, x.2 = RVal.s w := by
  suffices h : ∀ (l : List (String × String)) (acc : Row),
      (∀ x ∈ acc, ∃ w, x.2 = RVal.s w) →
      ∀ x ∈ l.foldl (fun d p => dset d p.1 (RVal.s p.2)) acc, ∃ w, x.2 = RVal.s w from
    h _ [] (by simp)
  intro l
  induction l with
  | nil =>
    intro acc hacc x hx
    exact hacc x (by simpa using hx)
  | cons p t ih =>
    intro acc hacc x hx
    rw [List.foldl_cons] at hx
    refine ih _ ?_ x hx
    intro q hq
    rcases mem_dset hq with h1 | h1
    · exact hacc q h1
    · exact ⟨p.2, by rw [h1]⟩

/-- C5 (corrected): a kept table row is extracted as the positional "cells"
record exactly when its cell count differs from the header length (a
label-to-text mapping otherwise); and the raw field of a normalized props row
reconstructs the original RowRecord exactly provided no row or header label
maps to the reserved key "raw" — a column literally labelled "raw" overwrites
the retained record, which refutes the unconditional round-trip claim. -/
theorem row_raw_c5 :
    (∀ header cells : List String, cells ≠ [] →
      (rowOf header cells = [("cells", RVal.l cells)] ↔
        header.length ≠ cells.length)) ∧
    (∀ (row : Row) (header : List String),
      (∀ p ∈ row, syn p.1 ≠ "raw") → (∀ h ∈ header, syn h ≠ "raw") →
      dget (normalize_row row header) "raw" = some (NVal.raw row)) := by
  constructor
  · intro header cells hc
    constructor
    · intro heq
      by_contra hne0
      have hne : header.length = cells.length := hne0
      have hcond : header ≠ [] ∧ header.length = cells.length := by
        refine ⟨?_, hne⟩
        intro h0
        subst h0
        simp only [List.length_nil] at hne
        exact hc (List.length_eq_zero.mp hne.symm)
      rw [rowOf, if_pos hcond] at heq
      have hmem : ("cells", RVal.l cells) ∈
          (header.zip cells).foldl (fun d p => dset d p.1 (RVal.s p.2)) ([] : Row) := by
        rw [heq]; simp
      obtain ⟨w, hw⟩ := rowOf_mapping_vals header cells _ hmem
      simp at hw
    · intro hne
      rw [rowOf, if_neg (fun hcond => hne hcond.2)]
  · intro row header hrow hhead
    rw [normalize_row, normalize_row_pre,
      dget_reqStep_ne _ (by decide), dget_nameStep_ne _ (by decide),
      dget_mapStep row header hrow hhead, dget_raw_base]

/-- Witness for C5: a mismatched row becomes positional, and the raw field of
a normal one-column props row is the original record. -/
theorem row_raw_c5_witness :
    (rowOf ["参数", "说明"] ["a"] = [("cells", RVal.l ["a"])] ↔
      (["参数", "说明"] : List String).length ≠ (["a"] : List String).length) ∧
    dget (normalize_row [("参数", RVal.s "a")] ["参数"]) "raw" =
      some (NVal.raw [("参数", RVal.s "a")]) :=
  ⟨row_raw_c5.1 _ _ (by decide),
   row_raw_c5.2 _ _ (by decide) (by decide)⟩

/-- Counterexample for C5 as stated: with a column literally labelled "raw",
the raw field of the normalized row is that column's cell, not the original
RowRecord, so normalization can lose the raw row. -/
theorem row_raw_c5_counterexample :
    dget (normalize_row [("参数", RVal.s "a"), ("raw", RVal.s "b")]
        ["参数", "raw"]) "raw" = some (NVal.s "b") := by decide

/-! Whole-page detail extraction (parse_component). -/

/-- Raw table structure of a page: stripped header-cell texts and the cell
texts of each body row in column order. -/
structure PageTable where
  header : List String
  body : List (List String)
deriving DecidableEq

/-- Structured content of one component page as seen by parse_component:
first heading text, paragraph texts in document order, tables, and the texts
of code blocks nested in preformatted blocks. -/
structure Page where
  h1 : Option String
  paragraphs : List String
  tables : List PageTable
  codes : List String
deriving DecidableEq

/-- Extracted table object: header plus structured rows. -/
structure TableObj where
  header : List String
  rows : List Row
deriving DecidableEq

/-- ComponentDetail record assembled by parse_component. -/
structure ComponentDetail where
  title : Option String
  intro : List String
  props : List TableObj
  events : List TableObj
  methods : List TableObj
  other_tables : List TableObj
  summary_props : Nat
  summary_events : Nat
  summary_methods : Nat
  summary_other : Nat
  examples : List String
  props_flat : List (List (String × NVal))
deriving DecidableEq

/-- Table extraction for one raw table: keep non-empty rows, each as a
mapping or positional RowRecord. -/
def tableOf (t : PageTable) : TableObj :=
  ⟨t.header, (t.body.filter (fun cells => cells ≠ [])).map (rowOf t.header)⟩

/-- parse_component from fetcher.py: title from the first heading, intro from
the first five non-empty paragraphs, tables classified into the four
categories with per-category counts, code samples, and the flattened
normalized rows of all props tables. -/
def parse_component (page : Page) : ComponentDetail :=
  let tables := page.tables.map tableOf
  let props_tables := tables.filter (fun t => classify t.header == "props")
  let event_tables := tables.filter (fun t => classify t.header == "events")
  let method_tables := tables.filter (fun t => classify t.header == "methods")
  let other_tables := tables.filter (fun t => classify t.header == "other")
  { title := page.h1
    intro := (page.paragraphs.take 5).filter (fun s => s ≠ "")
    props := props_tables
    events := event_tables
    methods := method_tables
    other_tables := other_tables
    summary_props := props_tables.length
    summary_events := event_tables.length
    summary_methods := method_tables.length
    summary_other := other_tables.length
    examples := page.codes.filter (fun s => s ≠ "")
    props_flat :=
      (props_tables.map (fun t => t.rows.map (fun r => normalize_row r t.header))).flatten }

/-- C8 (confirmed): the detail extractor is a total function of the page
model (the embedding never raises), and a page lacking heading, paragraphs,
tables and code blocks yields a detail record whose collections are all empty
and whose table counts are all zero. -/
theorem parse_component_c8 :
    parse_component ⟨none, [], [], []⟩ =
      ⟨none, [], [], [], [], [], 0, 0, 0, 0, [], []⟩ := by decide

/-! Corpus export (export_all_components). -/

/-- Catalog entry as consumed by the exporter: canonical name and optional
resolved url. -/
structure ExpComp where
  name : String
  url : Option String
deriving DecidableEq

/-- One export entry: a successful detail with the catalog name attached, or
the error record appended when that entry's processing raised.  Successful
details never carry an error key, so the two constructors model the Python
membership test for the error key exactly. -/
inductive ExportEntry (D : Type) where
  | ok (name : String) (detail : D)
  | err (name : String) (msg : String)
deriving DecidableEq

/-- Membership test for the error key on an export entry. -/
def isErr {D : Type} : ExportEntry D → Bool
  | .ok _ _ => false
  | .err _ _ => true

/-- Summary returned by export_all_components; the persisted filepath and
timestamp are I/O concerns outside the embedding, while count and components
mirror what is written to the JSON aggregate. -/
structure ExportResult (D : Type) where
  count : Nat
  components : List (ExportEntry D)
  errors : Nat
deriving DecidableEq

/-- Loop body of export_all_components for one catalog entry: a missing or
empty url raises FetchError (caught as an error record), any failure of
detail extraction is likewise caught, and a success keeps the detail. -/
def exportEntry {D : Type} (fetchDetail : ExpComp → Except String D)
    (comp : ExpComp) : ExportEntry D :=
  match comp.url with
  | none => .err comp.name "Missing URL"
  | some u =>
    if u = "" then .err comp.name "Missing URL"
    else
      match fetchDetail comp with
      | .ok d => .ok comp.name d
      | .error e => .err comp.name e

/-- export_all_components from fetcher.py over an abstract catalog and a
detail-extraction oracle: per-entry failures become error records; when
validate is set the error records are dropped, and count and errors are then
computed on the resulting list. -/
def export_all_components {D : Type} (index : List ExpComp)
    (fetchDetail : ExpComp → Except String D) (validate : Bool) :
    ExportResult D :=
  let all_details := index.map (exportEntry fetchDetail)
  let all_details :=
    if validate then all_details.filter (fun d => !isErr d) else all_details
  { count := all_details.length
    components := all_details
    errors := (all_details.filter (fun d => isErr d)).length }

/-- Failure predicate of the export loop: an entry fails when its url is
missing or empty, or when detail extraction raises. -/
def compFails {D : Type} (fetchDetail : ExpComp → Except String D)
    (comp : ExpComp) : Bool :=
  match comp.url with
  | none => true
  | some u =>
    if u = "" then true
    else
      match fetchDetail comp with
      | .ok _ => false
      | .error _ => true

theorem isErr_exportEntry {D : Type} (f : ExpComp → Except String D)
    (c : ExpComp) : isErr (exportEntry f c) = compFails f c := by
  rcases hu : c.url with _ | u
  · simp [exportEntry, compFails, hu, isErr]
  · by_cases he : u = "" <;> rcases hf : f c with e | d <;>
      simp [exportEntry, compFails, hu, he, hf, isErr]

/-- C1 (corrected): with validate off, count is the catalog size and the
errors field counts exactly the entries whose processing failed; with
validate on, error records are dropped before count and errors are computed,
so count is the number of successes but errors is always 0 — not the number
of failures encountered, as the claim asserts. -/
theorem export_all_c1 {D : Type} (index : List ExpComp)
    (f : ExpComp → Except String D) :
    (((export_all_components index f false).count = index.length) ∧
     ((export_all_components index f false).errors =
       (index.filter (fun c => compFails f c)).length)) ∧
    (((export_all_components index f true).count =
       (index.filter (fun c => !compFails f c)).length) ∧
     ((export_all_components index f true).errors = 0)) := by
  have hfm : ∀ p : ExportEntry D → Bool,
      (index.map (exportEntry f)).filter p =
        (index.filter (fun c => p (exportEntry f c))).map (exportEntry f) := by
    intro p
    rw [List.filter_map]
    rfl
  have hcong : ∀ p q : ExpComp → Bool, (∀ c, p c = q c) →
      index.filter p = index.filter q := by
    intro p q h
    exact List.filter_congr (fun c _ => h c)
  refine ⟨⟨?_, ?_⟩, ?_, ?_⟩
  · show (index.map (exportEntry f)).length = index.length
    simp
  · show ((index.map (exportEntry f)).filter (fun d => isErr d)).length = _
    rw [hfm, List.length_map]
    rw [hcong _ _ (fun c => isErr_exportEntry f c)]
  · show ((index.map (exportEntry f)).filter (fun d => !isErr d)).length = _
    rw [hfm, List.length_map]
    rw [hcong _ _ (fun c => by rw [isErr_exportEntry])]
  · show (((index.map (exportEntry f)).filter (fun d => !isErr d)).filter
      (fun d => isErr d)).length = 0
    rw [List.length_eq_zero]
    rw [List.filter_eq_nil_iff]
    intro a ha
    have h2 := (List.mem_filter.mp ha).2
    simp only [Bool.not_eq_true'] at h2
    simp [h2]

/-- Counterexample for C1 as stated: for a catalog of three components where
detail extraction of the second raises, export with validate on returns
count 2 but errorCount 0, not 1 — the errors field is computed after the
error records were dropped. -/
theorem export_all_c1_counterexample :
    (export_all_components
        [ExpComp.mk "A" (some "https://4x.ant.design/components/a-cn/"),
         ExpComp.mk "B" (some "https://4x.ant.design/components/b-cn/"),
         ExpComp.mk "C" (some "https://4x.ant.design/components/c-cn/")]
        (fun c => if c.name = "B" then Except.error "boom" else Except.ok ())
        true).count = 2 ∧
    (export_all_components
        [ExpComp.mk "A" (some "https://4x.ant.design/components/a-cn/"),
         ExpComp.mk "B" (some "https://4x.ant.design/components/b-cn/"),
         ExpComp.mk "C" (some "https://4x.ant.design/components/c-cn/")]
        (fun c => if c.name = "B" then Except.error "boom" else Except.ok ())
        true).errors ≠ 1 ∧
    (export_all_components
        [ExpComp.mk "A" (some "https://4x.ant.design/components/a-cn/"),
         ExpComp.mk "B" (some "https://4x.ant.design/components/b-cn/"),
         ExpComp.mk "C" (some "https://4x.ant.design/components/c-cn/")]
        (fun c => if c.name = "B" then Except.error "boom" else Except.ok ())
        true).errors = 0 ∧
    (export_all_components
        [ExpComp.mk "A" (some "https://4x.ant.design/components/a-cn/"),
         ExpComp.mk "B" (some "https://4x.ant.design/components/b-cn/"),
         ExpComp.mk "C" (some "https://4x.ant.design/components/c-cn/")]
        (fun c => if c.name = "B" then Except.error "boom" else Except.ok ())
        false).count = 3 ∧
    (export_all_components
        [ExpComp.mk "A" (some "https://4x.ant.design/components/a-cn/"),
         ExpComp.mk "B" (some "https://4x.ant.design/components/b-cn/"),
         ExpComp.mk "C" (some "https://4x.ant.design/components/c-cn/")]
        (fun c => if c.name = "B" then Except.error "boom" else Except.ok ())
        false).errors = 1 := by
  refine ⟨?_, ?_, ?_, ?_, ?_⟩ <;> decide

/-! Tool dispatcher (server.py). -/

/-- Names of the registered tools, in declaration order. -/
def TOOLS : List String :=
  ["list_components", "get_component", "search_components", "export_all",
    "get_component_props"]

/-- JSON-RPC response envelope emitted by process_request: a jsonrpc 2.0
object carrying either a result payload or an error object with a numeric
code and a message. -/
inductive RpcResp (Res : Type) where
  | result (id : Option Int) (res : Res)
  | error (id : Option Int) (code : Int) (message : String)
deriving DecidableEq

/-- Result payload of process_request: the tools/list metadata (modelled by
the registered names) or the content-wrapped return value of a tool call. -/
inductive RpcPayload (Val : Type) where
  | toolsList (names : List String)
  | content (v : Val)
deriving DecidableEq

/-- Incoming request as read by process_request: optional method, id, and
params.name for tool calls (params.arguments is consumed opaquely by the
tool-call oracle). -/
structure RpcReq where
  method : Option String
  id : Option Int
  toolName : Option String
deriving DecidableEq

/-- Python str() of an optional string as interpolated into error messages
(None prints as the literal None). -/
def optStr : Option String → String
  | some s => s
  | none => "None"

/-- process_request from server.py: tools/list answers with the registry,
tools/call rejects unregistered tool names with the method-not-found code,
converts an exception inside the handler into the internal-error code, and
wraps a successful return value under content; any other method is
method-not-found.  The run oracle stands for process_tool_call applied to
the request's decoded arguments, handler exceptions appearing as errors. -/
def process_request {Val : Type} (run : String → Except String Val)
    (req : RpcReq) : RpcResp (RpcPayload Val) :=
  if req.method = some "tools/list" then .result req.id (.toolsList TOOLS)
  else if req.method = some "tools/call" then
    match req.toolName with
    | some tn =>
      if TOOLS.contains tn then
        match run tn with
        | .ok v => .result req.id (.content v)
        | .error e => .error req.id (-32603) ("Internal error: " ++ e)
      else .error req.id (-32601) ("Unknown tool " ++ tn)
    | none => .error req.id (-32601) ("Unknown tool None")
  else .error req.id (-32601) ("Unknown method " ++ optStr req.method)

theorem process_request_call_some {Val : Type} (run : String → Except String Val)
    (req : RpcReq) (hm : req.method = some "tools/call") {tn : String}
    (htn : req.toolName = some tn) :
    process_request run req =
      (if TOOLS.contains tn then
        match run tn with
        | .ok v => .result req.id (.content v)
        | .error e => .error req.id (-32603) ("Internal error: " ++ e)
      else .error req.id (-32601) ("Unknown tool " ++ tn)) := by
  unfold process_request
  rw [hm, htn]
  rw [if_neg (by decide), if_pos rfl]

theorem process_request_call_none {Val : Type} (run : String → Except String Val)
    (req : RpcReq) (hm : req.method = some "tools/call")
    (htn : req.toolName = none) :
    process_request run req = .error req.id (-32601) "Unknown tool None" := by
  unfold process_request
  rw [hm, htn]
  rw [if_neg (by decide), if_pos rfl]

/-- C9 (confirmed): a tools/call naming an unregistered (or missing) tool
returns the fixed method-not-found error envelope with code -32601 and never
propagates an exception; an exception inside a registered handler returns the
fixed internal-error envelope with code -32603; and a successful call returns
a result envelope wrapping the operation result under content. -/
theorem process_request_c9 {Val : Type} (run : String → Except String Val)
    (req : RpcReq) (hm : req.method = some "tools/call") :
    (∀ tn : String, req.toolName = some tn → TOOLS.contains tn = false →
      process_request run req =
        .error req.id (-32601) ("Unknown tool " ++ tn)) ∧
    (req.toolName = none →
      process_request run req = .error req.id (-32601) "Unknown tool None") ∧
    (∀ (tn : String) (e : String), req.toolName = some tn →
      TOOLS.contains tn = true → run tn = .error e →
      process_request run req =
        .error req.id (-32603) ("Internal error: " ++ e)) ∧
    (∀ (tn : String) (v : Val), req.toolName = some tn →
      TOOLS.contains tn = true → run tn = .ok v →
      process_request run req = .result req.id (.content v)) := by
  refine ⟨?_, ?_, ?_, ?_⟩
  · intro tn htn hc
    rw [process_request_call_some run req hm htn,
      if_neg (by simp only [hc]; exact Bool.false_ne_true)]
  · intro htn
    exact process_request_call_none run req hm htn
  · intro tn e htn hc hrun
    rw [process_request_call_some run req hm htn, if_pos hc, hrun]
  · intro tn v htn hc hrun
    rw [process_request_call_some run req hm htn, if_pos hc, hrun]

/-- Witness for C9: an unregistered tool, a raising handler and a successful
call on a concrete request. -/
theorem process_request_c9_witness :
    process_request
        (fun tn => if tn = "export_all" then Except.error "boom"
          else Except.ok (7 : Nat))
        ⟨some "tools/call", some 1, some "bogus"⟩ =
      .error (some 1) (-32601) "Unknown tool bogus" ∧
    process_request
        (fun tn => if tn = "export_all" then Except.error "boom"
          else Except.ok (7 : Nat))
        ⟨some "tools/call", some 2, some "export_all"⟩ =
      .error (some 2) (-32603) "Internal error: boom" ∧
    process_request
        (fun tn => if tn = "export_all" then Except.error "boom"
          else Except.ok (7 : Nat))
        ⟨some "tools/call", some 3, some "list_components"⟩ =
      .result (some 3) (.content 7) :=
  ⟨(process_request_c9 _ _ rfl).1 "bogus" rfl (by decide),
   (process_request_c9 _ _ rfl).2.2.1 "export_all" "boom" rfl (by decide) rfl,
   (process_request_c9 _ _ rfl).2.2.2 "list_components" 7 rfl (by decide) rfl⟩

/-! Component lookup by name (get_component / get_component_props). -/

/-- Component lookup shared by handle_get_component and
handle_get_component_props: the first catalog entry whose canonical name
matches the requested name case-insensitively. -/
def findComponent (index : List Summary) (name : String) : Option Summary :=
  index.find? (fun c => pyLower c.name == pyLower name)

/-- Structured result of the two lookup handlers: an error record or a
successful payload. -/
inductive GetCompResult (D : Type) where
  | error (msg : String)
  | ok (detail : D)
deriving DecidableEq

/-- handle_get_component from server.py: a missing or empty name is reported
as not provided, a name with no case-insensitive match as not found, and
otherwise the detail fetched for the matched entry's url is returned (the
getDetail oracle stands for the cached get_component_detail call). -/
def handle_get_component {D : Type} (index : List Summary)
    (getDetail : Option String → D) : Option String → GetCompResult D
  | none => .error "Component name not provided in arguments"
  | some n =>
    if n = "" then .error "Component name not provided in arguments"
    else
      match findComponent index n with
      | none => .error ("Component " ++ n ++ " not found")
      | some target => .ok (getDetail target.url)

/-- handle_get_component_props from server.py: same lookup as
handle_get_component, returning the component name, the detail's props_flat
list and its length (the getFlat oracle stands for the cached detail's
props_flat field). -/
def handle_get_component_props (index : List Summary)
    (getFlat : Option String → List (List (String × NVal))) :
    Option String → GetCompResult (String × List (List (String × NVal)) × Nat)
  | none => .error "Component name not provided in arguments"
  | some n =>
    if n = "" then .error "Component name not provided in arguments"
    else
      match findComponent index n with
      | none => .error ("Component " ++ n ++ " not found")
      | some target =>
        .ok (n, getFlat target.url, (getFlat target.url).length)

theorem hgc_found {D : Type} {index : List Summary}
    (getDetail : Option String → D) {n : String} {c : Summary} (hn : ¬(n = ""))
    (hc : findComponent index n = some c) :
    handle_get_component index getDetail (some n) = .ok (getDetail c.url) := by
  have heq : handle_get_component index getDetail (some n) =
      (if n = "" then .error "Component name not provided in arguments"
      else
        match findComponent index n with
        | none => .error ("Component " ++ n ++ " not found")
        | some target => .ok (getDetail target.url)) := rfl
  rw [heq, if_neg hn, hc]

theorem hgc_not_found {D : Type} {index : List Summary}
    (getDetail : Option String → D) {n : String} (hn : ¬(n = ""))
    (hc : findComponent index n = none) :
    handle_get_component index getDetail (some n) =
      .error ("Component " ++ n ++ " not found") := by
  have heq : handle_get_component index getDetail (some n) =
      (if n = "" then .error "Component name not provided in arguments"
      else
        match findComponent index n with
        | none => .error ("Component " ++ n ++ " not found")
        | some target => .ok (getDetail target.url)) := rfl
  rw [heq, if_neg hn, hc]

theorem hgcp_found {index : List Summary}
    (getFlat : Option String → List (List (String × NVal))) {n : String}
    {c : Summary} (hn : ¬(n = "")) (hc : findComponent index n = some c) :
    handle_get_component_props index getFlat (some n) =
      .ok (n, getFlat c.url, (getFlat c.url).length) := by
  have heq : handle_get_component_props index getFlat (some n) =
      (if n = "" then .error "Component name not provided in arguments"
      else
        match findComponent index n with
        | none => .error ("Component " ++ n ++ " not found")
        | some target => .ok (n, getFlat target.url, (getFlat target.url).length)) := rfl
  rw [heq, if_neg hn, hc]

theorem hgcp_not_found {index : List Summary}
    (getFlat : Option String → List (List (String × NVal))) {n : String}
    (hn : ¬(n = "")) (hc : findComponent index n = none) :
    handle_get_component_props index getFlat (some n) =
      .error ("Component " ++ n ++ " not found") := by
  have heq : handle_get_component_props index getFlat (some n) =
      (if n = "" then .error "Component name not provided in arguments"
      else
        match findComponent index n with
        | none => .error ("Component " ++ n ++ " not found")
        | some target => .ok (n, getFlat target.url, (getFlat target.url).length)) := rfl
  rw [heq, if_neg hn, hc]

/-- C10 (confirmed): for a provided non-empty name, both lookup handlers
select a catalog entry whose canonical name equals the requested name up to
ASCII case (the first such entry), and return the structured not-found error
exactly when no such entry exists. -/
theorem lookup_c10 {D : Type} (index : List Summary)
    (getDetail : Option String → D)
    (getFlat : Option String → List (List (String × NVal)))
    (n : String) (hn : n ≠ "") :
    (∀ c : Summary, findComponent index n = some c →
      c ∈ index ∧ pyLower c.name = pyLower n ∧
      handle_get_component index getDetail (some n) = .ok (getDetail c.url) ∧
      handle_get_component_props index getFlat (some n) =
        .ok (n, getFlat c.url, (getFlat c.url).length)) ∧
    ((¬ ∃ c ∈ index, pyLower c.name = pyLower n) →
      handle_get_component index getDetail (some n) =
        .error ("Component " ++ n ++ " not found") ∧
      handle_get_component_props index getFlat (some n) =
        .error ("Component " ++ n ++ " not found")) ∧
    ((∃ c ∈ index, pyLower c.name = pyLower n) →
      ∃ c : Summary, findComponent index n = some c) := by
  refine ⟨?_, ?_, ?_⟩
  · intro c hc
    refine ⟨List.mem_of_find?_eq_some hc, ?_, hgc_found getDetail hn hc,
      hgcp_found getFlat hn hc⟩
    have := List.find?_some hc
    simpa using this
  · intro hno
    have hfind : findComponent index n = none := by
      rcases h : findComponent index n with _ | c
      · rfl
      · exact absurd
          ⟨c, List.mem_of_find?_eq_some h, by simpa using List.find?_some h⟩ hno
    exact ⟨hgc_not_found getDetail hn hfind, hgcp_not_found getFlat hn hfind⟩
  · intro hyes
    rcases h : findComponent index n with _ | c
    · obtain ⟨c, hcmem, hcn⟩ := hyes
      rw [findComponent, List.find?_eq_none] at h
      exact absurd (by simpa using hcn) (by simpa using h c hcmem)
    · exact ⟨c, rfl⟩

/-- Witness for C10: a case-insensitive hit and a miss on a concrete
catalog. -/
theorem lookup_c10_witness :
    handle_get_component
        [Summary.mk "Button" "Button 按钮"
          (some "https://4x.ant.design/components/button-cn/") ""]
        (fun _ => (0 : Nat)) (some "bUTTON") = .ok 0 ∧
    handle_get_component
        [Summary.mk "Button" "Button 按钮"
          (some "https://4x.ant.design/components/button-cn/") ""]
        (fun _ => (0 : Nat)) (some "Modal") =
      .error "Component Modal not found" :=
  ⟨((lookup_c10
      [Summary.mk "Button" "Button 按钮"
        (some "https://4x.ant.design/components/button-cn/") ""]
      (fun _ => (0 : Nat)) (fun _ => []) "bUTTON" (by decide)).1
      (Summary.mk "Button" "Button 按钮"
        (some "https://4x.ant.design/components/button-cn/") "")
      (by decide)).2.2.1,
   ((lookup_c10
      [Summary.mk "Button" "Button 按钮"
        (some "https://4x.ant.design/components/button-cn/") ""]
      (fun _ => (0 : Nat)) (fun _ => []) "Modal" (by decide)).2.1
      (by decide)).1⟩

end AntdMcp
